import Mathlib

/-!
Verification of the kraken JSA layer (`src/bridge/jsa/include/js_type.h`) and
the JSC TextNode binding (`src/bridge/bindings/jsc/DOM/text_node.cc`) against
their natural-language specification.  The C++ sources are shallowly embedded:
pure functions become Lean functions, the engine adapter (`JSContext`) becomes
an explicit record of state-passing primitives, machine pointers become `Nat`
identifiers and `assert` / undefined union reads become an explicit `Outcome`.
-/

namespace Jsa

/-- The tag of a `Value`, embedding the private `enum ValueKind` of
`class Value` (js_type.h lines 811-820). -/
inductive ValueKind where
  | UndefinedKind
  | NullKind
  | BooleanKind
  | NumberKind
  | SymbolKind
  | StringKind
  | ObjectKind
  deriving DecidableEq, Repr

/-- The payload union `Value::Data` (js_type.h lines 822-834).  In C++ this is
an untagged union; reading a member other than the active one is undefined
behaviour, and the union's user-provided default constructor leaves the storage
indeterminate.  The embedding records the active member, plus `uninit` for the
indeterminate default. -/
inductive Data where
  | uninit
  | boolean (b : Bool)
  | number (d : Int)
  | pointer (ptr : Option Nat)
  deriving DecidableEq, Repr

/-- Reading `data_.boolean`: defined only when `boolean` is the active member. -/
def Data.readBool : Data → Option Bool
  | .boolean b => some b
  | _ => none

/-- Reading `data_.number`: defined only when `number` is the active member. -/
def Data.readNumber : Data → Option Int
  | .number d => some d
  | _ => none

/-- Reading `data_.pointer.ptr_`: defined only when `pointer` is active. -/
def Data.readPointer : Data → Option (Option Nat)
  | .pointer p => some p
  | _ => none

/-- `class Value` (js_type.h lines 612-852): a kind tag plus the payload
union.  C++ doubles carry no claim-relevant arithmetic, so the number payload
is embedded as `Int`. -/
structure Value where
  kind_ : ValueKind
  data_ : Data
  deriving DecidableEq, Repr

/-- The outcome of running a member function whose C++ body may hit an
`assert` (a programming-error fault) or read an inactive union member
(silent undefined bits).  `ok` is a normal return. -/
inductive Outcome (α : Type) where
  | ok (a : α)
  | fault
  | undefBits
  deriving DecidableEq, Repr

/-- `Value::Value()` (line 615): kind `UndefinedKind`; the union is left with
its user-provided default constructor, so the payload is indeterminate. -/
def Value.undefinedValue : Value := ⟨.UndefinedKind, .uninit⟩

/-- `Value::Value(std::nullptr_t)` (line 618): kind `NullKind`, payload
untouched. -/
def Value.ofNull : Value := ⟨.NullKind, .uninit⟩

/-- `Value::Value(bool b)` (lines 621-623). -/
def Value.ofBool (b : Bool) : Value := ⟨.BooleanKind, .boolean b⟩

/-- `Value::Value(double d)` (lines 626-628). -/
def Value.ofDouble (d : Int) : Value := ⟨.NumberKind, .number d⟩

/-- `Value::Value(int i)` (lines 630-633); the int is widened into the number
payload. -/
def Value.ofInt (i : Int) : Value := ⟨.NumberKind, .number i⟩

/-- `Value::Value(Symbol&&)` through the template constructor
(lines 636-642): adopts the wrapper's handle. -/
def Value.ofSymbolHandle (p : Option Nat) : Value := ⟨.SymbolKind, .pointer p⟩

/-- `Value::Value(String&&)` through the template constructor. -/
def Value.ofStringHandle (p : Option Nat) : Value := ⟨.StringKind, .pointer p⟩

/-- `Value::Value(Object&&)` through the template constructor. -/
def Value.ofObjectHandle (p : Option Nat) : Value := ⟨.ObjectKind, .pointer p⟩

/-- `Value::isUndefined` (lines 700-702). -/
def Value.isUndefined (v : Value) : Bool := v.kind_ = ValueKind.UndefinedKind

/-- `Value::isNull` (lines 704-706). -/
def Value.isNull (v : Value) : Bool := v.kind_ = ValueKind.NullKind

/-- `Value::isBool` (lines 708-710). -/
def Value.isBool (v : Value) : Bool := v.kind_ = ValueKind.BooleanKind

/-- `Value::isNumber` (lines 712-714). -/
def Value.isNumber (v : Value) : Bool := v.kind_ = ValueKind.NumberKind

/-- `Value::isString` (lines 716-718). -/
def Value.isString (v : Value) : Bool := v.kind_ = ValueKind.StringKind

/-- `Value::isSymbol` (lines 720-722). -/
def Value.isSymbol (v : Value) : Bool := v.kind_ = ValueKind.SymbolKind

/-- `Value::isObject` (lines 724-726). -/
def Value.isObject (v : Value) : Bool := v.kind_ = ValueKind.ObjectKind

/-- `Value::getBool` (js_type.h lines 728-731).  The body is exactly
`return data_.boolean;` — there is no `assert(isBool())`, so on a non-boolean
value the inactive union member is read (undefined bits), never a fault. -/
def Value.getBool (v : Value) : Outcome Bool :=
  match v.data_.readBool with
  | some b => .ok b
  | none => .undefBits

/-- `Value::getNumber` (js_type.h lines 733-737): `assert(isNumber())` then
`return data_.number;`. -/
def Value.getNumber (v : Value) : Outcome Int :=
  if v.isNumber then
    match v.data_.readNumber with
    | some d => .ok d
    | none => .undefBits
  else .fault

/-- The seven kind predicates of a value, in declaration order — the view the
claim about scalar constructors quantifies over. -/
def Value.kindFlags (v : Value) : List Bool :=
  [v.isUndefined, v.isNull, v.isBool, v.isNumber, v.isString, v.isSymbol, v.isObject]

/-! ## Pointer: the handle-owning base class (js_type.h lines 17-38) -/

/-- The state of a `Pointer` wrapper: `ptr_` is either a live
`JSContext::PointerValue*` handle (embedded as a `Nat` identity) or null. -/
structure PointerW where
  ptr_ : Option Nat
  deriving DecidableEq, Repr

/-- An observable effect on the engine produced by the wrapper layer. -/
inductive PEvent where
  | invalidate (h : Nat)
  deriving DecidableEq, Repr

/-- `Pointer::Pointer(Pointer&&)` (lines 19-21): the new wrapper takes
`other.ptr_` and `other.ptr_` is set to null.  Returns
(constructed wrapper, source after the move). -/
def PointerW.moveCtor (other : PointerW) : PointerW × PointerW :=
  (⟨other.ptr_⟩, ⟨none⟩)

/-- `Pointer::~Pointer()` (lines 23-27): if `ptr_` is non-null it is
invalidated; the result is the list of invalidation events emitted. -/
def PointerW.dtor (p : PointerW) : List PEvent :=
  match p.ptr_ with
  | some h => [.invalidate h]
  | none => []

/-- Modelled from the spec: `Pointer::operator=(Pointer&&)` is declared at
js_type.h line 29 but its body lives in js_type.cc, which is not under src/.
Per spec §4.1 a wrapper owns at most one handle, move leaves the source with
no handle, and a held handle is invalidated exactly once; so assignment
releases the destination's old handle and transfers the source's handle.
Returns (destination after, source after, events emitted). -/
def PointerW.moveAssign (self other : PointerW) : PointerW × PointerW × List PEvent :=
  (⟨other.ptr_⟩, ⟨none⟩, self.dtor)

/-! ## The engine adapter and the Object wrapper

`JSContext` (js_context.h, outside src/) is the engine adapter seam: the
wrapper layer in js_type.h only ever composes its primitives.  Claims about
the wrapper layer are therefore proved generically over an arbitrary adapter,
embedded as a record of state-passing primitives over an abstract state. -/

/-- A result paired with the adapter state after the primitive ran. -/
abbrev WithState (σ α : Type) := α × σ

/-- The dynamic (RTTI) type of a native `HostObject` payload: the common base
`HostObject` plus two unrelated derived classes, enough to observe every
outcome of `std::dynamic_pointer_cast<T>`. -/
inductive NativeTag where
  | base
  | derivedT
  | derivedU
  deriving DecidableEq, Repr

/-- A type-erased `std::shared_ptr<HostObject>` payload: its dynamic type tag
and an identity distinguishing distinct native objects. -/
structure HostPayload where
  tag : NativeTag
  payloadId : Nat
  deriving DecidableEq, Repr

/-- `dynamic_pointer_cast<T>` on a payload: succeeds when the payload's
dynamic type is `t` itself or when `t` is the `HostObject` base. -/
def dynCast (t : NativeTag) (p : HostPayload) : Option HostPayload :=
  if p.tag = t ∨ t = NativeTag.base then some p else none

/-- The engine-adapter primitives of `class JSContext` that the claims need,
over an abstract engine state `σ`.  Handles are `Nat` identities.  Each field
is one virtual primitive; the wrapper layer never bypasses them. -/
structure JSContextOps (σ : Type) where
  createStringFromAscii : σ → String → WithState σ Nat
  cloneString : σ → Option Nat → WithState σ (Option Nat)
  cloneObject : σ → Option Nat → WithState σ (Option Nat)
  cloneSymbol : σ → Option Nat → WithState σ (Option Nat)
  getPropertyStrP : σ → Option Nat → Nat → WithState σ Value
  hasPropertyStrP : σ → Option Nat → Nat → WithState σ Bool
  removePropertyStrP : σ → Option Nat → Nat → σ
  setPropertyValueStrP : σ → Option Nat → Nat → Value → σ
  callP : σ → Option Nat → Value → List Value → WithState σ Value
  callAsConstructorP : σ → Option Nat → List Value → WithState σ Value
  isArrayP : σ → Option Nat → Bool
  isArrayBufferP : σ → Option Nat → Bool
  isArrayBufferViewP : σ → Option Nat → Bool
  isFunctionP : σ → Option Nat → Bool
  isHostObjectP : σ → Option Nat → Bool
  getHostObjectP : σ → Option Nat → Option HostPayload

namespace ObjectW

variable {σ : Type}

/-- `String::createFromAscii(JSContext&, const char*)` (js_type.h
lines 139-148): delegates to the adapter's `createStringFromAscii`. -/
def createFromAscii (c : JSContextOps σ) (st : σ) (s : String) : WithState σ Nat :=
  c.createStringFromAscii st s

/-- `Object::getProperty(JSContext&, const String&)` (line 918-920):
delegates directly to the adapter. -/
def getPropertyStr (c : JSContextOps σ) (st : σ) (o : Option Nat) (name : Nat) :
    WithState σ Value :=
  c.getPropertyStrP st o name

/-- `Object::getProperty(JSContext&, const char*)` (lines 902-904):
`return getProperty(context, String::createFromAscii(context, name));`. -/
def getPropertyCstr (c : JSContextOps σ) (st : σ) (o : Option Nat) (name : String) :
    WithState σ Value :=
  let ks := createFromAscii c st name
  getPropertyStr c ks.2 o ks.1

/-- `Object::hasProperty(JSContext&, const String&)` (lines 930-932). -/
def hasPropertyStr (c : JSContextOps σ) (st : σ) (o : Option Nat) (name : Nat) :
    WithState σ Bool :=
  c.hasPropertyStrP st o name

/-- `Object::hasProperty(JSContext&, const char*)` (lines 926-928). -/
def hasPropertyCstr (c : JSContextOps σ) (st : σ) (o : Option Nat) (name : String) :
    WithState σ Bool :=
  let ks := createFromAscii c st name
  hasPropertyStr c ks.2 o ks.1

/-- `Object::removeProperty(JSContext&, const String&)` (lines 910-912). -/
def removePropertyStr (c : JSContextOps σ) (st : σ) (o : Option Nat) (name : Nat) : σ :=
  c.removePropertyStrP st o name

/-- `Object::removeProperty(JSContext&, const char*)` (lines 906-908):
`context.removeProperty(*this, String::createFromAscii(context, name));`. -/
def removePropertyCstr (c : JSContextOps σ) (st : σ) (o : Option Nat) (name : String) : σ :=
  let ks := createFromAscii c st name
  removePropertyStr c ks.2 o ks.1

/-- `Object::getArray(JSContext&) const &` (js_type.h lines 950-954):
`assert(context.isArray(*this));` then wraps a clone of the handle. -/
def getArrayLval (c : JSContextOps σ) (st : σ) (o : Option Nat) :
    Outcome (WithState σ (Option Nat)) :=
  if c.isArrayP st o then .ok (c.cloneObject st o) else .fault

/-- `Object::getArray(JSContext&) &&` (lines 956-962): asserts, then moves
the handle out (source `ptr_` becomes null, no clone). -/
def getArrayRval (c : JSContextOps σ) (st : σ) (o : Option Nat) :
    Outcome (WithState σ (Option Nat)) :=
  if c.isArrayP st o then .ok (o, st) else .fault

/-- `Object::getArrayBuffer(JSContext&) const &` (lines 964-968). -/
def getArrayBufferLval (c : JSContextOps σ) (st : σ) (o : Option Nat) :
    Outcome (WithState σ (Option Nat)) :=
  if c.isArrayBufferP st o then .ok (c.cloneObject st o) else .fault

/-- `Object::getArrayBuffer(JSContext&) &&` (lines 970-976). -/
def getArrayBufferRval (c : JSContextOps σ) (st : σ) (o : Option Nat) :
    Outcome (WithState σ (Option Nat)) :=
  if c.isArrayBufferP st o then .ok (o, st) else .fault

/-- `Object::getArrayBufferView(JSContext&) const &` (lines 978-981):
`assert(context.isArrayBufferView(*this));` then clone. -/
def getArrayBufferViewLval (c : JSContextOps σ) (st : σ) (o : Option Nat) :
    Outcome (WithState σ (Option Nat)) :=
  if c.isArrayBufferViewP st o then .ok (c.cloneObject st o) else .fault

/-- `Object::getArrayBufferView(JSContext&) &&` (js_type.h lines 983-987).
The body is exactly: take `ptr_`, null the source, wrap as `ArrayBufferView` —
there is no `assert(context.isArrayBufferView(*this))`, unlike the lvalue
overload and unlike every other object-cast accessor's rvalue overload. -/
def getArrayBufferViewRval (_c : JSContextOps σ) (st : σ) (o : Option Nat) :
    Outcome (WithState σ (Option Nat)) :=
  .ok (o, st)

/-- `Object::getFunction(JSContext&) const &` (lines 989-992). -/
def getFunctionLval (c : JSContextOps σ) (st : σ) (o : Option Nat) :
    Outcome (WithState σ (Option Nat)) :=
  if c.isFunctionP st o then .ok (c.cloneObject st o) else .fault

/-- `Object::getFunction(JSContext&) &&` (lines 994-1000). -/
def getFunctionRval (c : JSContextOps σ) (st : σ) (o : Option Nat) :
    Outcome (WithState σ (Option Nat)) :=
  if c.isFunctionP st o then .ok (o, st) else .fault

/-- `Object::isHostObject<T>(JSContext&)` for a derived `T` (lines 1002-1004):
`context.isHostObject(*this) &&
 std::dynamic_pointer_cast<T>(context.getHostObject(*this))`.
A null `shared_ptr` dynamic-casts to null. -/
def isHostObjectT (c : JSContextOps σ) (st : σ) (o : Option Nat) (t : NativeTag) : Bool :=
  c.isHostObjectP st o &&
    (match c.getHostObjectP st o with
     | some p => (dynCast t p).isSome
     | none => false)

/-- `Object::isHostObject<HostObject>` specialization (lines 1006-1008):
only the adapter query, no dynamic cast. -/
def isHostObjectBase (c : JSContextOps σ) (st : σ) (o : Option Nat) : Bool :=
  c.isHostObjectP st o

/-- `Object::getHostObject<T>(JSContext&)` (lines 1010-1013):
`assert(isHostObject<T>(context));` then `static_pointer_cast` of the raw
payload. -/
def getHostObjectT (c : JSContextOps σ) (st : σ) (o : Option Nat) (t : NativeTag) :
    Outcome (Option HostPayload) :=
  if isHostObjectT c st o t then .ok (c.getHostObjectP st o) else .fault

/-- `Object::asHostObject<T>(JSContext&)` (lines 1015-1020): on a failed
`isHostObject<T>` check it calls `detail::throwJSError(context, "Object is
not a HostObject of desired type")`.  Modelled from the spec:
`detail::throwJSError` (declared line 898) is defined outside src/; per spec
§7 it raises a catchable script error carrying the message. -/
def asHostObjectT (c : JSContextOps σ) (st : σ) (o : Option Nat) (t : NativeTag) :
    Except String (Option HostPayload) :=
  if isHostObjectT c st o t then .ok (c.getHostObjectP st o)
  else .error "Object is not a HostObject of desired type"

end ObjectW

/-! ## detail::toValue (js_type.h lines 856-886) -/

/-- The overload set accepted by `Object::setProperty`'s template parameter:
"a Value or anything which can be used to make one: nullptr_t, bool, double,
int, const char*, String, or Object" (js_type.h lines 246-248). -/
inductive ToValueArg where
  | ofNull
  | ofBool (b : Bool)
  | ofDouble (d : Int)
  | ofInt (i : Int)
  | ofFloat (f : Int)
  | ofCStr (s : String)
  | ofStr (h : Option Nat)
  | ofObj (h : Option Nat)
  deriving DecidableEq, Repr

namespace DetailNS

variable {σ : Type}

/-- `detail::toValue` (js_type.h lines 856-880), one equation per overload:
scalars are wrapped without touching the adapter; `const char*` goes through
`String::createFromAscii`; `String`/`Object` lvalues are cloned through the
adapter (the `Value(JSContext&, const String&/const Object&)` constructors,
lines 658-665). -/
def toValue (c : JSContextOps σ) (st : σ) : ToValueArg → WithState σ Value
  | .ofNull => (Value.ofNull, st)
  | .ofBool b => (Value.ofBool b, st)
  | .ofDouble d => (Value.ofDouble d, st)
  | .ofInt i => (Value.ofInt i, st)
  | .ofFloat f => (Value.ofDouble f, st)
  | .ofCStr s =>
    let ks := c.createStringFromAscii st s
    (Value.ofStringHandle (some ks.1), ks.2)
  | .ofStr h =>
    let ks := c.cloneString st h
    (Value.ofStringHandle ks.1, ks.2)
  | .ofObj h =>
    let ks := c.cloneObject st h
    (Value.ofObjectHandle ks.1, ks.2)

end DetailNS

namespace ObjectW

variable {σ : Type}

/-- `Object::setProperty(JSContext&, const String&, T&&)` (lines 942-944):
convert the argument with `detail::toValue`, then delegate to
`setPropertyValue` (lines 365-367), which calls the adapter. -/
def setPropertyStr (c : JSContextOps σ) (st : σ) (o : Option Nat) (name : Nat)
    (arg : ToValueArg) : σ :=
  let vs := DetailNS.toValue c st arg
  c.setPropertyValueStrP vs.2 o name vs.1

/-- `Object::setProperty(JSContext&, const char*, T&&)` (lines 938-940):
`setProperty(context, String::createFromAscii(context, name), value);`. -/
def setPropertyCstr (c : JSContextOps σ) (st : σ) (o : Option Nat) (name : String)
    (arg : ToValueArg) : σ :=
  let ks := createFromAscii c st name
  setPropertyStr c ks.2 o ks.1 arg

end ObjectW

/-! ## Function call modes (js_type.h lines 1053-1111) -/

namespace FunctionW

variable {σ : Type}

/-- `Function::call(JSContext&, const Value*, size_t)` (lines 1053-1055):
`return context.call(*this, Value::undefined(), args, count);`. -/
def call (c : JSContextOps σ) (st : σ) (f : Option Nat) (args : List Value) :
    WithState σ Value :=
  c.callP st f Value.undefinedValue args

/-- `Function::callWithThis(JSContext&, const Object&, const Value*, size_t)`
(lines 1068-1070): `return context.call(*this, Value(context, jsThis), args,
count);` — the `this` object is cloned into a `Value` (lines 663-665). -/
def callWithThis (c : JSContextOps σ) (st : σ) (f : Option Nat) (jsThis : Option Nat)
    (args : List Value) : WithState σ Value :=
  let ks := c.cloneObject st jsThis
  c.callP ks.2 f (Value.ofObjectHandle ks.1) args

/-- `Function::callAsConstructor(JSContext&, const Value*, size_t)`
(lines 1101-1103): `return context.callAsConstructor(*this, args, count);`. -/
def callAsConstructor (c : JSContextOps σ) (st : σ) (f : Option Nat)
    (args : List Value) : WithState σ Value :=
  c.callAsConstructorP st f args

end FunctionW

/-! ## Spec-side forms of the C-string property overloads

Written from the spec's words (§4.3): "all string-keyed overloads are
convenience forms that intern the key through the Adapter before
delegating" — build the key with the adapter's string primitive first, then
invoke the keyed operation on the resulting state. -/

namespace SpecSide

variable {σ : Type}

/-- Spec wording of `getProperty` by C string: intern, then delegate. -/
def getPropertyInterned (c : JSContextOps σ) (st : σ) (o : Option Nat) (name : String) :
    WithState σ Value :=
  let key := c.createStringFromAscii st name
  c.getPropertyStrP key.2 o key.1

/-- Spec wording of `hasProperty` by C string. -/
def hasPropertyInterned (c : JSContextOps σ) (st : σ) (o : Option Nat) (name : String) :
    WithState σ Bool :=
  let key := c.createStringFromAscii st name
  c.hasPropertyStrP key.2 o key.1

/-- Spec wording of `removeProperty` by C string. -/
def removePropertyInterned (c : JSContextOps σ) (st : σ) (o : Option Nat) (name : String) : σ :=
  let key := c.createStringFromAscii st name
  c.removePropertyStrP key.2 o key.1

/-- Spec wording of `setProperty` by C string: intern the key, convert the
argument to a value, then delegate to the adapter's property write. -/
def setPropertyInterned (c : JSContextOps σ) (st : σ) (o : Option Nat) (name : String)
    (arg : ToValueArg) : σ :=
  let key := c.createStringFromAscii st name
  let v := DetailNS.toValue c key.2 arg
  c.setPropertyValueStrP v.2 o key.1 v.1

end SpecSide

/-! ## Array indexed access (js_type.h lines 1035-1041)

`Array::getValueAtIndex` / `Array::setValueAtIndex` delegate to the adapter
primitives `JSContext::getValueAtIndex` / `setValueAtIndexImpl`; the bounds
check itself lives in the engine adapter, outside src/. -/

/-- Association-list lookup, the embedding of `std::unordered_map` /
engine-table access used below. -/
def alookup {κ α : Type} [DecidableEq κ] (k : κ) : List (κ × α) → Option α
  | [] => none
  | kv :: rest => if k = kv.1 then some kv.2 else alookup k rest

/-- A catchable script error raised by the engine adapter. -/
inductive JSErr where
  | rangeErr
  deriving DecidableEq, Repr

/-- Modelled from the spec: the engine-side array store behind the adapter
(`JSContext::getValueAtIndex`/`setValueAtIndexImpl`, defined outside src/).
Each array handle maps to its current element list; the `length` property is
the element count of the current state. -/
structure ArrayHeap where
  arrays : List (Nat × List Value)
  deriving DecidableEq, Repr

/-- The current value of an array's `length` property, read from the heap at
call time. -/
def ArrayHeap.lengthOf (h : ArrayHeap) (a : Nat) : Nat :=
  ((alookup a h.arrays).getD []).length

namespace ArrayW

/-- Modelled from the spec: the adapter primitive behind
`Array::getValueAtIndex(JSContext&, size_t)` (js_type.h lines 1039-1041).
Per spec §4.3 it reads `length` from the object's length property at call
time and raises a catchable range error when the index falls outside
`[0, length)`. -/
def getValueAtIndex (h : ArrayHeap) (a : Nat) (i : Nat) : Except JSErr Value :=
  if i < h.lengthOf a then
    .ok (((alookup a h.arrays).getD []).getD i Value.undefinedValue)
  else .error .rangeErr

/-- Modelled from the spec: the adapter primitive behind
`Array::setValueAtIndex` (js_type.h lines 1035-1037, via
`setValueAtIndexImpl`, lines 444-446): same call-time bounds rule; in range,
the element is replaced. -/
def setValueAtIndex (h : ArrayHeap) (a : Nat) (i : Nat) (v : Value) :
    Except JSErr ArrayHeap :=
  if i < h.lengthOf a then
    .ok ⟨h.arrays.map fun kv => if kv.1 = a then (kv.1, kv.2.set i v) else kv⟩
  else .error .rangeErr

end ArrayW

/-! ## TextNode binding (text_node.cc) -/

/-- Modelled from the spec: `enum TextNodeProperty` is declared in
text_node.h, which is not under src/; its values observed in text_node.cc
(the switch at lines 50-59 and the property map at lines 101-104) are
exactly these three. -/
inductive TextNodeProperty where
  | kData
  | kTextContent
  | kNodeName
  deriving DecidableEq, Repr

/-- A JavaScriptCore `JSValueRef` as far as the binding observes it. -/
inductive JSCVal where
  | jsString (s : String)
  | other (n : Nat)
  deriving DecidableEq, Repr

namespace TextNodeInstance

/-- `JSTextNode::TextNodeInstance::getTextNodePropertyMap` (text_node.cc
lines 99-106): the static name-to-enum map. -/
def getTextNodePropertyMap : List (String × TextNodeProperty) :=
  [("data", .kData), ("textContent", .kTextContent), ("nodeName", .kNodeName)]

/-- The switch over `TextNodeProperty` in
`JSTextNode::TextNodeInstance::getProperty` (text_node.cc lines 50-59):
`kTextContent` and `kData` share a case returning the stored `data` string,
`kNodeName` returns `"#text"`.  The switch has no `default`; a `none` result
would model control leaving the switch without a return. -/
def propertySwitch (data : String) : TextNodeProperty → Option JSCVal
  | .kTextContent => some (.jsString data)
  | .kData => some (.jsString data)
  | .kNodeName => some (.jsString "#text")

/-- `JSTextNode::TextNodeInstance::getProperty` (text_node.cc lines 42-60):
a name absent from the map is delegated to `JSNode::NodeInstance::getProperty`
(outside src/, supplied as the oracle `base`); a name present selects its
enum value and runs the switch. -/
def getProperty (data : String) (base : String → JSCVal) (name : String) :
    Option JSCVal :=
  match alookup name getTextNodePropertyMap with
  | none => some (base name)
  | some p => propertySwitch data p

end TextNodeInstance

/-! ## JSTextNode::instance (text_node.cc lines 16-22) -/

/-- The state of the function-local static
`std::unordered_map<JSContext*, JSTextNode*> instanceMap` together with the
allocator: `entries` maps context pointers to instance pointers (both `Nat`
identities); `nextPtr` is the next fresh address `new JSTextNode` returns.
Instances are never deleted, so fresh addresses never collide with live
ones. -/
structure InstanceMapState where
  entries : List (Nat × Nat)
  nextPtr : Nat
  deriving DecidableEq, Repr

/-- The state before any call: an empty map. -/
def InstanceMapState.initial : InstanceMapState := ⟨[], 0⟩

namespace JSTextNodeM

/-- `JSTextNode::instance(JSContext*)` (text_node.cc lines 16-22): if the
map has no entry for `context`, allocate a new `JSTextNode` and store it;
return the mapped instance. -/
def getInstance (st : InstanceMapState) (ctx : Nat) : Nat × InstanceMapState :=
  match alookup ctx st.entries with
  | some p => (p, st)
  | none => (st.nextPtr, ⟨(ctx, st.nextPtr) :: st.entries, st.nextPtr + 1⟩)

/-- The representation invariant of the instance map: keys are distinct
(`std::unordered_map`), values are distinct live allocations, and every
stored value is an address already handed out. -/
def MapInv (st : InstanceMapState) : Prop :=
  (st.entries.map Prod.fst).Nodup ∧ (st.entries.map Prod.snd).Nodup ∧
    ∀ kv ∈ st.entries, kv.2 < st.nextPtr

end JSTextNodeM

/-! ## A concrete demonstration adapter

A small closed engine adapter used to evaluate the wrapper layer at concrete
inputs: object handle 1 is host-backed by a native payload of dynamic type
`derivedT`; no object has the array/buffer/function capabilities; the call
and construct primitives return observably different values. -/

def demoOps : JSContextOps Unit where
  createStringFromAscii := fun _ s => (s.length, ())
  cloneString := fun _ h => (h, ())
  cloneObject := fun _ h => (h, ())
  cloneSymbol := fun _ h => (h, ())
  getPropertyStrP := fun _ _ _ => (Value.undefinedValue, ())
  hasPropertyStrP := fun _ _ _ => (false, ())
  removePropertyStrP := fun s _ _ => s
  setPropertyValueStrP := fun s _ _ _ => s
  callP := fun _ _ _ _ => (Value.ofInt 1, ())
  callAsConstructorP := fun _ _ _ => (Value.ofInt 2, ())
  isArrayP := fun _ _ => false
  isArrayBufferP := fun _ _ => false
  isArrayBufferViewP := fun _ _ => false
  isFunctionP := fun _ _ => false
  isHostObjectP := fun _ o => o = some 1
  getHostObjectP := fun _ o => if o = some 1 then some ⟨.derivedT, 5⟩ else none

/-! ## Value::toJSON (js_type.h line 806)

`Value::toJSON` is declared in js_type.h but implemented in js_type.cc, which
is not under src/.  The whole serializer is therefore modelled from the spec
(§4.2): "JSON serialization (`toJSON`) performs a full structural walk and
must reject cyclic reference graphs with a serialization error rather than
looping forever."  The value's reference graph is the engine heap: object
handles with named fields whose values are scalars or further references. -/

/-- A scalar leaf of the reference graph. -/
inductive Scalar where
  | undefS
  | nullS
  | boolS (b : Bool)
  | numS (n : Int)
  | strS (s : String)
  deriving DecidableEq, Repr

/-- A node of the reference graph: a scalar, or a reference to an engine
object identified by its handle. -/
inductive JVal where
  | scalar (s : Scalar)
  | ref (id : Nat)
  deriving DecidableEq, Repr

/-- The reference ids a single value mentions directly. -/
def JVal.refsOf : JVal → List Nat
  | .scalar _ => []
  | .ref i => [i]

/-- The engine heap: each object handle maps to its named fields. -/
structure JHeap where
  objects : List (Nat × List (String × JVal))
  deriving DecidableEq, Repr

/-- The fields of an object; a handle outside the heap has none. -/
def JHeap.fieldsOf (h : JHeap) (id : Nat) : List (String × JVal) :=
  (alookup id h.objects).getD []

/-- Every reference id mentioned by any field value stored in the heap. -/
def JHeap.refIds (h : JHeap) : List Nat :=
  h.objects.flatMap fun kv => kv.2.flatMap fun f => f.2.refsOf

/-- One edge of the reference graph: object `a` has a field referring to `b`. -/
def JHeap.edge (h : JHeap) (a b : Nat) : Prop :=
  ∃ k, (k, JVal.ref b) ∈ h.fieldsOf a

/-- The value's reference graph is cyclic: its root refers to object `i`,
from which some object `n` lying on a nontrivial reference cycle is
reachable. -/
def cyclicFrom (h : JHeap) (v : JVal) : Prop :=
  ∃ i n, v = .ref i ∧ Relation.ReflTransGen h.edge i n ∧ Relation.TransGen h.edge n n

/-- The result of a serialization attempt: a serialization error on a cycle,
or (internally) exhaustion of the recursion-depth budget. -/
inductive SerErr where
  | cyclic
  | fuelOut
  deriving DecidableEq, Repr

/-- JSON text of a scalar. -/
def scalarText : Scalar → String
  | .undefS => "null"
  | .nullS => "null"
  | .boolS true => "true"
  | .boolS false => "false"
  | .numS n => toString n
  | .strS s => "\"" ++ s ++ "\""

mutual

/-- Modelled from the spec: the structural walk of `Value::toJSON`.  `path`
holds the object handles currently being serialized (the ancestors); meeting
one again is a cycle and raises the serialization error.  `fuel` bounds the
recursion depth; `toJSON` passes enough for any path of distinct handles. -/
def serVal (h : JHeap) : Nat → List Nat → JVal → Except SerErr String
  | 0, _, _ => .error .fuelOut
  | _ + 1, _, .scalar s => .ok (scalarText s)
  | fuel + 1, path, .ref id =>
    if id ∈ path then .error .cyclic
    else
      match serFields h fuel (id :: path) (h.fieldsOf id) with
      | .error e => .error e
      | .ok body => .ok ("\x7b" ++ body ++ "\x7d")
termination_by fuel _ _ => (fuel, 0)

/-- Serialize a list of fields under the same ancestor path. -/
def serFields (h : JHeap) : Nat → List Nat → List (String × JVal) → Except SerErr String
  | _, _, [] => .ok ""
  | fuel, path, f :: rest =>
    match serVal h fuel path f.2 with
    | .error e => .error e
    | .ok s =>
      match serFields h fuel path rest with
      | .error e => .error e
      | .ok s' => .ok ("\"" ++ f.1 ++ "\":" ++ s ++ ";" ++ s')
termination_by fuel _ fs => (fuel, fs.length + 1)

end

/-- Modelled from the spec: `Value::toJSON(JSContext&)` (declared js_type.h
line 806, implemented outside src/): run the structural walk from the root
with a depth budget exceeding the number of distinct handles, so the budget
can only be exhausted by revisiting a handle — which the cycle check
forbids first. -/
def toJSON (h : JHeap) (v : JVal) : Except SerErr String :=
  serVal h ((v.refsOf ++ h.refIds).length + 1) [] v

/-- The chain invariant of the walk: `Anchor h v₀ path v` says the walk that
started at root value `v₀` is now serializing `v`, with `path` the handles of
the ancestors, each a field-reference of the next. -/
def Anchor (h : JHeap) (v₀ : JVal) : List Nat → JVal → Prop
  | [], v => v = v₀
  | p :: rest, v => (∃ k, (k, v) ∈ h.fieldsOf p) ∧ Anchor h v₀ rest (.ref p)

/-! # Theorems -/

theorem alookup_mem {κ α : Type} [DecidableEq κ] {k : κ} {v : α} :
    ∀ {l : List (κ × α)}, alookup k l = some v → (k, v) ∈ l := by
  intro l
  induction l with
  | nil => intro hc; simp [alookup] at hc
  | cons kv rest ih =>
    intro hl
    by_cases hk : k = kv.1
    · simp [alookup, hk] at hl
      subst hk
      rw [← hl]
      simp
    · simp [alookup, hk] at hl
      right
      exact ih hl

theorem alookup_eq_none_iff {κ α : Type} [DecidableEq κ] {k : κ} :
    ∀ {l : List (κ × α)}, alookup k l = none ↔ k ∉ l.map Prod.fst := by
  intro l
  induction l with
  | nil => simp [alookup]
  | cons kv rest ih =>
    by_cases hk : k = kv.1
    · simp [alookup, hk]
    · simp [alookup, hk, ih]

/-- C3: for every scalar kind, the corresponding constructor produces a value
satisfying exactly its own kind predicate: `Value()` is only `isUndefined`,
`Value(nullptr)` only `isNull`, `Value(b)` only `isBool`, and `Value(3.0)` /
`Value(3)` only `isNumber`. -/
theorem scalar_ctor_kind_exclusive :
    ∀ (b : Bool) (d i : Int),
      Value.kindFlags Value.undefinedValue =
        [true, false, false, false, false, false, false] ∧
      Value.kindFlags Value.ofNull =
        [false, true, false, false, false, false, false] ∧
      Value.kindFlags (Value.ofBool b) =
        [false, false, true, false, false, false, false] ∧
      Value.kindFlags (Value.ofDouble d) =
        [false, false, false, true, false, false, false] ∧
      Value.kindFlags (Value.ofInt i) =
        [false, false, false, true, false, false, false] :=
  fun _ _ _ => ⟨rfl, rfl, rfl, rfl, rfl⟩

/-- C1 (code bug): `Value::getBool` on a non-boolean value does not fault —
against its own doc comment ("asserts if not a boolean") it silently reads
the inactive union member — and the rvalue overload of
`Object::getArrayBufferView` on an object without the capability does not
fault either, unlike its lvalue twin and unlike the checked accessors
(`getNumber`, `getArray`, `getArrayBuffer`, `getFunction`), which all
fault. -/
theorem getBool_and_getArrayBufferView_do_not_fault :
    Value.getBool (Value.ofDouble 3) = Outcome.undefBits ∧
    Value.getBool (Value.ofDouble 3) ≠ Outcome.fault ∧
    Value.getNumber (Value.ofBool true) = Outcome.fault ∧
    ObjectW.getArrayBufferViewRval demoOps () (some 7) = Outcome.ok (some 7, ()) ∧
    ObjectW.getArrayBufferViewLval demoOps () (some 7) = Outcome.fault ∧
    ObjectW.getArrayLval demoOps () (some 7) = Outcome.fault ∧
    ObjectW.getArrayBufferRval demoOps () (some 7) = Outcome.fault ∧
    ObjectW.getFunctionRval demoOps () (some 7) = Outcome.fault := by
  refine ⟨rfl, ?_, rfl, rfl, rfl, rfl, rfl, rfl⟩
  decide

/-- C2: move construction and move assignment of a `Pointer` wrapper leave
the source with no handle (its later destruction emits nothing) and transfer
the original handle to the destination; destruction of a wrapper still
holding a handle invalidates exactly that handle, exactly once. -/
theorem pointer_move_ownership :
    ∀ (p q : PointerW) (hdl : Nat),
      (PointerW.moveCtor p).2.ptr_ = none ∧
      (PointerW.moveCtor p).2.dtor = [] ∧
      (PointerW.moveCtor p).1.ptr_ = p.ptr_ ∧
      (PointerW.moveAssign q p).2.1.ptr_ = none ∧
      (PointerW.moveAssign q p).2.1.dtor = [] ∧
      (PointerW.moveAssign q p).1.ptr_ = p.ptr_ ∧
      (p.ptr_ = some hdl → p.dtor = [PEvent.invalidate hdl]) := by
  intro p q hdl
  refine ⟨rfl, rfl, rfl, rfl, rfl, rfl, ?_⟩
  intro hp
  simp [PointerW.dtor, hp]

/-- Witness for `pointer_move_ownership` at a concrete wrapper holding
handle 5. -/
theorem pointer_move_ownership_witness :
    (PointerW.mk (some 5)).dtor = [PEvent.invalidate 5] :=
  (pointer_move_ownership ⟨some 5⟩ ⟨none⟩ 5).2.2.2.2.2.2 rfl

/-- C7: for every adapter, object, C-string name and settable argument, the
C-string property overloads equal the spec-side forms that intern the key
through the adapter first and then delegate to the keyed operation; and the
argument conversion `detail::toValue` leaves the adapter state untouched for
every scalar argument (its only engine effects are those of value
construction itself, i.e. the string/object cases). -/
theorem cstring_property_overloads_intern_then_delegate :
    ∀ (σ : Type) (c : JSContextOps σ) (st : σ) (o : Option Nat) (name : String)
      (arg : ToValueArg) (b : Bool) (d i : Int),
      ObjectW.getPropertyCstr c st o name = SpecSide.getPropertyInterned c st o name ∧
      ObjectW.hasPropertyCstr c st o name = SpecSide.hasPropertyInterned c st o name ∧
      ObjectW.removePropertyCstr c st o name = SpecSide.removePropertyInterned c st o name ∧
      ObjectW.setPropertyCstr c st o name arg = SpecSide.setPropertyInterned c st o name arg ∧
      (DetailNS.toValue c st .ofNull).2 = st ∧
      (DetailNS.toValue c st (.ofBool b)).2 = st ∧
      (DetailNS.toValue c st (.ofDouble d)).2 = st ∧
      (DetailNS.toValue c st (.ofInt i)).2 = st ∧
      (DetailNS.toValue c st (.ofFloat i)).2 = st :=
  fun _ _ _ _ _ _ _ _ _ => ⟨rfl, rfl, rfl, rfl, rfl, rfl, rfl, rfl, rfl⟩

/-- C8: for every adapter, `Function::call` invokes the adapter's `call`
primitive with the undefined value as `this`; `callWithThis` invokes the same
primitive with a clone of the supplied object as `this`;
`callAsConstructor` invokes the adapter's separate `callAsConstructor`
primitive.  On the demonstration adapter — whose two call primitives are
observably different — the two entry points produce different results, so
constructor invocation is its own call mode, not the call primitive with a
flag. -/
theorem function_call_modes :
    ∀ (σ : Type) (c : JSContextOps σ) (st : σ) (f jsThis : Option Nat) (args : List Value),
      FunctionW.call c st f args = c.callP st f Value.undefinedValue args ∧
      Value.undefinedValue.isUndefined = true ∧
      FunctionW.callWithThis c st f jsThis args =
        (let ks := c.cloneObject st jsThis
         c.callP ks.2 f (Value.ofObjectHandle ks.1) args) ∧
      FunctionW.callAsConstructor c st f args = c.callAsConstructorP st f args ∧
      FunctionW.call demoOps () (some 3) [] ≠
        FunctionW.callAsConstructor demoOps () (some 3) [] := by
  intro σ c st f jsThis args
  refine ⟨rfl, rfl, rfl, rfl, ?_⟩
  decide

/-- Witness-style corollary of `function_call_modes` on the demonstration
adapter: the two call modes reach their two distinct primitives. -/
theorem function_call_modes_witness :
    FunctionW.call demoOps () (some 3) [] = (Value.ofInt 1, ()) ∧
    FunctionW.callAsConstructor demoOps () (some 3) [] = (Value.ofInt 2, ()) := by
  have hm := function_call_modes Unit demoOps () (some 3) (some 4) []
  exact ⟨hm.1.trans rfl, hm.2.2.2.1.trans rfl⟩

/-- C5: `isHostObject<T>` holds exactly when the object is host-backed and
its payload dynamically casts to `T`; when it holds, the checked and
unchecked accessors both return the underlying payload; when it fails, the
checked `asHostObject<T>` raises the catchable script error naming the
expected type while the unchecked `getHostObject<T>` faults.  In particular a
payload of exactly type `t` succeeds, and a payload of an unrelated type
fails. -/
theorem host_object_checked_downcast :
    ∀ (σ : Type) (c : JSContextOps σ) (st : σ) (o : Option Nat) (p : HostPayload)
      (t : NativeTag),
      (ObjectW.isHostObjectT c st o t = true ↔
        c.isHostObjectP st o = true ∧
          ∃ q, c.getHostObjectP st o = some q ∧ (dynCast t q).isSome = true) ∧
      (ObjectW.isHostObjectT c st o t = true →
        ObjectW.asHostObjectT c st o t = .ok (c.getHostObjectP st o) ∧
        ObjectW.getHostObjectT c st o t = .ok (c.getHostObjectP st o)) ∧
      (ObjectW.isHostObjectT c st o t = false →
        ObjectW.asHostObjectT c st o t =
          .error "Object is not a HostObject of desired type" ∧
        ObjectW.getHostObjectT c st o t = .fault) ∧
      (c.getHostObjectP st o = some p → p.tag = t →
        ObjectW.isHostObjectT c st o t = c.isHostObjectP st o) ∧
      (c.getHostObjectP st o = some p → p.tag ≠ t → t ≠ .base →
        ObjectW.isHostObjectT c st o t = false) := by
  intro σ c st o p t
  refine ⟨?_, ?_, ?_, ?_, ?_⟩
  · constructor
    · intro hyes
      simp only [ObjectW.isHostObjectT, Bool.and_eq_true] at hyes
      refine ⟨hyes.1, ?_⟩
      rcases hq : c.getHostObjectP st o with _ | q
      · rw [hq] at hyes
        simp at hyes
      · rw [hq] at hyes
        exact ⟨q, rfl, hyes.2⟩
    · rintro ⟨hhost, q, hq, hcast⟩
      simp [ObjectW.isHostObjectT, hhost, hq, hcast]
  · intro hyes
    constructor
    · simp [ObjectW.asHostObjectT, hyes]
    · simp [ObjectW.getHostObjectT, hyes]
  · intro hno
    constructor
    · simp [ObjectW.asHostObjectT, hno]
    · simp [ObjectW.getHostObjectT, hno]
  · intro hq ht
    simp [ObjectW.isHostObjectT, hq, dynCast, ht]
  · intro hq ht hb
    simp [ObjectW.isHostObjectT, hq, dynCast, ht, hb]

/-- Witness for `host_object_checked_downcast` on the demonstration adapter:
object 1 is backed by a payload of dynamic type `derivedT`, so the `derivedT`
downcast succeeds and the unrelated `derivedU` downcast raises the catchable
error while the unchecked accessor faults. -/
theorem host_object_checked_downcast_witness :
    ObjectW.asHostObjectT demoOps () (some 1) .derivedT =
      .ok (some ⟨.derivedT, 5⟩) ∧
    ObjectW.asHostObjectT demoOps () (some 1) .derivedU =
      .error "Object is not a HostObject of desired type" ∧
    ObjectW.getHostObjectT demoOps () (some 1) .derivedU = .fault := by
  have hT :=
    (host_object_checked_downcast Unit demoOps () (some 1) ⟨.derivedT, 5⟩ .derivedT).2.1
      (by decide)
  have hU :=
    (host_object_checked_downcast Unit demoOps () (some 1) ⟨.derivedT, 5⟩ .derivedU).2.2.1
      (by decide)
  exact ⟨hT.1, hU.1, hU.2⟩

/-- C4: the array element accessors raise a catchable range error exactly
when the index falls outside `[0, length)`, with the length read from the
heap at call time; access at `length` errors, and access at `length - 1`
succeeds whenever the array is nonempty. -/
theorem array_index_bounds :
    ∀ (h : ArrayHeap) (a i : Nat) (v : Value),
      ((∃ e, ArrayW.getValueAtIndex h a i = .error e) ↔ ¬ i < h.lengthOf a) ∧
      ((∃ e, ArrayW.setValueAtIndex h a i v = .error e) ↔ ¬ i < h.lengthOf a) ∧
      ArrayW.getValueAtIndex h a (h.lengthOf a) = .error .rangeErr ∧
      ArrayW.setValueAtIndex h a (h.lengthOf a) v = .error .rangeErr ∧
      (0 < h.lengthOf a →
        (∃ w, ArrayW.getValueAtIndex h a (h.lengthOf a - 1) = .ok w) ∧
        (∃ h2, ArrayW.setValueAtIndex h a (h.lengthOf a - 1) v = .ok h2)) := by
  intro h a i v
  refine ⟨?_, ?_, ?_, ?_, ?_⟩
  · by_cases hlt : i < h.lengthOf a
    · simp [ArrayW.getValueAtIndex, hlt]
    · simp only [ArrayW.getValueAtIndex, if_neg hlt]
      simp [hlt]
      exact ⟨JSErr.rangeErr, trivial⟩
  · by_cases hlt : i < h.lengthOf a
    · simp [ArrayW.setValueAtIndex, hlt]
    · simp only [ArrayW.setValueAtIndex, if_neg hlt]
      simp [hlt]
      exact ⟨JSErr.rangeErr, trivial⟩
  · simp [ArrayW.getValueAtIndex]
  · simp [ArrayW.setValueAtIndex]
  · intro hpos
    have hlt : h.lengthOf a - 1 < h.lengthOf a := Nat.sub_lt hpos Nat.one_pos
    have hg : ArrayW.getValueAtIndex h a (h.lengthOf a - 1) =
        .ok (((alookup a h.arrays).getD []).getD (h.lengthOf a - 1) Value.undefinedValue) := by
      unfold ArrayW.getValueAtIndex
      rw [if_pos hlt]
    have hs : ArrayW.setValueAtIndex h a (h.lengthOf a - 1) v =
        .ok ⟨h.arrays.map fun kv =>
          if kv.1 = a then (kv.1, kv.2.set (h.lengthOf a - 1) v) else kv⟩ := by
      unfold ArrayW.setValueAtIndex
      rw [if_pos hlt]
    exact ⟨⟨_, hg⟩, ⟨_, hs⟩⟩

/-- Witness for `array_index_bounds` on a one-element array: index 0
(`length - 1`) succeeds and index 1 (`length`) raises the range error. -/
theorem array_index_bounds_witness :
    (∃ w, ArrayW.getValueAtIndex ⟨[(0, [Value.ofInt 9])]⟩ 0 0 = .ok w) ∧
    ArrayW.getValueAtIndex ⟨[(0, [Value.ofInt 9])]⟩ 0 1 = .error .rangeErr := by
  have hmain := array_index_bounds ⟨[(0, [Value.ofInt 9])]⟩ 0 1 Value.ofNull
  have hlen : ArrayHeap.lengthOf ⟨[(0, [Value.ofInt 9])]⟩ 0 = 1 := by decide
  refine ⟨?_, ?_⟩
  · have := (hmain.2.2.2.2 (by rw [hlen]; decide)).1
    rw [hlen] at this
    exact this
  · have := hmain.2.2.1
    rw [hlen] at this
    exact this

/-- C9: the TextNode property getter returns a defined value on every path:
a name outside the property map is delegated to the base `Node` getter, and
each of the three mapped names is answered by its switch case; control never
leaves the switch without a value. -/
theorem textnode_getProperty_total :
    ∀ (data : String) (base : String → JSCVal) (name : String),
      (TextNodeInstance.getProperty data base name).isSome = true ∧
      TextNodeInstance.getProperty data base "data" = some (.jsString data) ∧
      TextNodeInstance.getProperty data base "textContent" = some (.jsString data) ∧
      TextNodeInstance.getProperty data base "nodeName" = some (.jsString "#text") ∧
      (alookup name TextNodeInstance.getTextNodePropertyMap = none →
        TextNodeInstance.getProperty data base name = some (base name)) := by
  intro data base name
  refine ⟨?_, rfl, rfl, rfl, ?_⟩
  · unfold TextNodeInstance.getProperty
    rcases hmap : alookup name TextNodeInstance.getTextNodePropertyMap with _ | p
    · simp
    · cases p <;> simp [TextNodeInstance.propertySwitch]
  · intro hnone
    unfold TextNodeInstance.getProperty
    rw [hnone]

/-- Witness for `textnode_getProperty_total`: the name `"foo"` is not in the
property map, so the getter delegates to the base oracle. -/
theorem textnode_getProperty_total_witness :
    TextNodeInstance.getProperty "x" (fun _ => .other 0) "foo" = some (.other 0) :=
  (textnode_getProperty_total "x" (fun _ => .other 0) "foo").2.2.2.2 (by decide)

theorem getInstance_lookup_self (st : InstanceMapState) (c : Nat) :
    alookup c (JSTextNodeM.getInstance st c).2.entries =
      some (JSTextNodeM.getInstance st c).1 := by
  rcases hl : alookup c st.entries with _ | p
  · simp [JSTextNodeM.getInstance, hl, alookup]
  · simp [JSTextNodeM.getInstance, hl]

theorem getInstance_inv (st : InstanceMapState) (c : Nat)
    (hinv : JSTextNodeM.MapInv st) : JSTextNodeM.MapInv (JSTextNodeM.getInstance st c).2 := by
  obtain ⟨hkeys, hvals, hbound⟩ := hinv
  rcases hl : alookup c st.entries with _ | p
  · have hstep : JSTextNodeM.getInstance st c =
        (st.nextPtr, ⟨(c, st.nextPtr) :: st.entries, st.nextPtr + 1⟩) := by
      simp [JSTextNodeM.getInstance, hl]
    rw [hstep]
    refine ⟨?_, ?_, ?_⟩
    · simp only [List.map_cons]
      exact List.nodup_cons.mpr ⟨alookup_eq_none_iff.mp hl, hkeys⟩
    · simp only [List.map_cons]
      refine List.nodup_cons.mpr ⟨?_, hvals⟩
      intro hmem
      obtain ⟨kv, hkv, hsnd⟩ := List.mem_map.mp hmem
      exact absurd (hsnd ▸ hbound kv hkv) (Nat.lt_irrefl _)
    · intro kv hkv
      rcases List.mem_cons.mp hkv with hkv | hkv
      · subst hkv
        exact Nat.lt_succ_self _
      · exact Nat.lt_succ_of_lt (hbound kv hkv)
  · have hstep : JSTextNodeM.getInstance st c = (p, st) := by
      simp [JSTextNodeM.getInstance, hl]
    rw [hstep]
    exact ⟨hkeys, hvals, hbound⟩

/-- C10: with the instance map in its representation invariant, a repeated
`JSTextNode::instance` call for the same context returns the same pointer
without changing the map, calls for two distinct contexts return distinct
pointers, the invariant is preserved, and the initial (empty) map satisfies
it. -/
theorem textnode_instance_memoized :
    ∀ (st : InstanceMapState) (c d : Nat),
      JSTextNodeM.MapInv st → c ≠ d →
      (JSTextNodeM.getInstance (JSTextNodeM.getInstance st c).2 c).1 =
        (JSTextNodeM.getInstance st c).1 ∧
      (JSTextNodeM.getInstance (JSTextNodeM.getInstance st c).2 c).2 =
        (JSTextNodeM.getInstance st c).2 ∧
      (JSTextNodeM.getInstance (JSTextNodeM.getInstance st c).2 d).1 ≠
        (JSTextNodeM.getInstance st c).1 ∧
      JSTextNodeM.MapInv (JSTextNodeM.getInstance st c).2 ∧
      JSTextNodeM.MapInv InstanceMapState.initial := by
  intro st c d hinv hne
  obtain ⟨hkeys, hvals, hbound⟩ := hinv
  have hself := getInstance_lookup_self st c
  have hrepeat : JSTextNodeM.getInstance (JSTextNodeM.getInstance st c).2 c =
      ((JSTextNodeM.getInstance st c).1, (JSTextNodeM.getInstance st c).2) := by
    obtain ⟨p1, st1, hps⟩ : ∃ p1 st1, JSTextNodeM.getInstance st c = (p1, st1) :=
      ⟨_, _, rfl⟩
    rw [hps] at hself ⊢
    simp only at hself
    simp [JSTextNodeM.getInstance, hself]
  refine ⟨congrArg Prod.fst hrepeat, congrArg Prod.snd hrepeat, ?_,
    getInstance_inv st c ⟨hkeys, hvals, hbound⟩, ?_⟩
  · rcases hl : alookup c st.entries with _ | p
    · have hstep : JSTextNodeM.getInstance st c =
          (st.nextPtr, ⟨(c, st.nextPtr) :: st.entries, st.nextPtr + 1⟩) := by
        simp [JSTextNodeM.getInstance, hl]
      rw [hstep]
      have hnc : ¬ (d = c) := fun hcc => hne hcc.symm
      have hskip : alookup d ((c, st.nextPtr) :: st.entries) = alookup d st.entries := by
        simp [alookup, hnc]
      rcases hl2 : alookup d st.entries with _ | q
      · simp [JSTextNodeM.getInstance, hskip, hl2]
      · simp only [JSTextNodeM.getInstance, hskip, hl2]
        have hq : q < st.nextPtr := hbound (d, q) (alookup_mem hl2)
        exact Nat.ne_of_lt hq
    · have hstep : JSTextNodeM.getInstance st c = (p, st) := by
        simp [JSTextNodeM.getInstance, hl]
      rw [hstep]
      rcases hl2 : alookup d st.entries with _ | q
      · simp only [JSTextNodeM.getInstance, hl2]
        have hp : p < st.nextPtr := hbound (c, p) (alookup_mem hl)
        exact (Nat.ne_of_lt hp).symm
      · simp only [JSTextNodeM.getInstance, hl2]
        intro hpq
        have hc : (d, q) ∈ st.entries := alookup_mem hl2
        have hcp : (c, p) ∈ st.entries := alookup_mem hl
        have heq := List.inj_on_of_nodup_map hvals hc hcp (by simpa using hpq)
        exact hne (congrArg Prod.fst heq).symm
  · exact ⟨List.nodup_nil, List.nodup_nil, by simp [InstanceMapState.initial]⟩

/-- Witness for `textnode_instance_memoized`: starting from the empty map,
context 0 twice yields the same instance, and context 1 yields a different
one. -/
theorem textnode_instance_memoized_witness :
    (JSTextNodeM.getInstance (JSTextNodeM.getInstance InstanceMapState.initial 0).2 0).1 =
      (JSTextNodeM.getInstance InstanceMapState.initial 0).1 ∧
    (JSTextNodeM.getInstance (JSTextNodeM.getInstance InstanceMapState.initial 0).2 1).1 ≠
      (JSTextNodeM.getInstance InstanceMapState.initial 0).1 := by
  have hm := textnode_instance_memoized InstanceMapState.initial 0 1
    ⟨List.nodup_nil, List.nodup_nil, by simp [InstanceMapState.initial]⟩ (by decide)
  exact ⟨hm.1, hm.2.2.1⟩

/-! ## toJSON: cycle rejection and termination (C6) -/

theorem serVal_zero (h : JHeap) (path : List Nat) (v : JVal) :
    serVal h 0 path v = .error .fuelOut := by
  cases v <;> simp [serVal]

theorem serVal_scalar (h : JHeap) (fuel : Nat) (path : List Nat) (s : Scalar) :
    serVal h (fuel + 1) path (.scalar s) = .ok (scalarText s) := by
  rw [serVal]

theorem serVal_ref (h : JHeap) (fuel : Nat) (path : List Nat) (id : Nat) :
    serVal h (fuel + 1) path (.ref id) =
      if id ∈ path then .error .cyclic
      else
        match serFields h fuel (id :: path) (h.fieldsOf id) with
        | .error e => .error e
        | .ok body => .ok ("\x7b" ++ body ++ "\x7d") := by
  rw [serVal]

theorem serFields_nil (h : JHeap) (fuel : Nat) (path : List Nat) :
    serFields h fuel path [] = .ok "" := by
  rw [serFields]

theorem serFields_cons (h : JHeap) (fuel : Nat) (path : List Nat) (f : String × JVal)
    (rest : List (String × JVal)) :
    serFields h fuel path (f :: rest) =
      match serVal h fuel path f.2 with
      | .error e => .error e
      | .ok s =>
        match serFields h fuel path rest with
        | .error e => .error e
        | .ok t => .ok ("\"" ++ f.1 ++ "\":" ++ s ++ ";" ++ t) := by
  rw [serFields]

theorem serFields_ok_each {h : JHeap} {fuel : Nat} {path : List Nat} :
    ∀ {fs : List (String × JVal)} {s : String}, serFields h fuel path fs = .ok s →
      ∀ f ∈ fs, ∃ s2, serVal h fuel path f.2 = .ok s2 := by
  intro fs
  induction fs with
  | nil =>
    intro s _ f hf
    cases hf
  | cons g rest ihf =>
    intro s hok f hf
    rw [serFields_cons] at hok
    rcases hg : serVal h fuel path g.2 with e | s1
    · rw [hg] at hok
      exact absurd hok (by simp)
    · rw [hg] at hok
      rcases hr : serFields h fuel path rest with e | s2
      · rw [hr] at hok
        exact absurd hok (by simp)
      · rcases List.mem_cons.mp hf with rfl | hf2
        · exact ⟨s1, hg⟩
        · exact ihf hr f hf2

theorem serFields_error_exists {h : JHeap} {fuel : Nat} {path : List Nat} :
    ∀ {fs : List (String × JVal)} {e : SerErr}, serFields h fuel path fs = .error e →
      ∃ f ∈ fs, serVal h fuel path f.2 = .error e := by
  intro fs
  induction fs with
  | nil =>
    intro e herr
    rw [serFields_nil] at herr
    exact absurd herr (by simp)
  | cons g rest ihf =>
    intro e herr
    rw [serFields_cons] at herr
    rcases hg : serVal h fuel path g.2 with e1 | s1
    · rw [hg] at herr
      injection herr with he
      exact ⟨g, List.mem_cons_self g rest, he ▸ hg⟩
    · rw [hg] at herr
      rcases hr : serFields h fuel path rest with e2 | s2
      · rw [hr] at herr
        injection herr with he
        obtain ⟨f, hf, hval⟩ := ihf hr
        exact ⟨f, List.mem_cons_of_mem _ hf, he ▸ hval⟩
      · rw [hr] at herr
        exact absurd herr (by simp)

theorem fieldsOf_refs_mem {h : JHeap} {id : Nat} {f : String × JVal}
    (hf : f ∈ h.fieldsOf id) : ∀ j ∈ f.2.refsOf, j ∈ h.refIds := by
  intro j hj
  unfold JHeap.fieldsOf at hf
  rcases hl : alookup id h.objects with _ | l
  · rw [hl] at hf
    cases hf
  · rw [hl] at hf
    have hmemobj : (id, l) ∈ h.objects := alookup_mem hl
    unfold JHeap.refIds
    exact List.mem_flatMap.mpr ⟨(id, l), hmemobj, List.mem_flatMap.mpr ⟨f, hf, hj⟩⟩

theorem nodup_subset_length {p S : List Nat} (hn : p.Nodup) (hs : ∀ x ∈ p, x ∈ S) :
    p.length ≤ S.length :=
  calc p.length = p.toFinset.card := (List.toFinset_card_of_nodup hn).symm
    _ ≤ S.toFinset.card :=
      Finset.card_le_card fun x hx => List.mem_toFinset.mpr (hs x (List.mem_toFinset.mp hx))
    _ ≤ S.length := List.toFinset_card_le S

theorem serVal_ok_reach (h : JHeap) :
    ∀ (fuel : Nat) (path : List Nat) (i : Nat) (s : String),
      serVal h fuel path (.ref i) = .ok s →
      ∀ n, Relation.ReflTransGen h.edge i n →
        n ∉ path ∧ ¬ Relation.TransGen h.edge n n := by
  intro fuel
  induction fuel with
  | zero =>
    intro path i s hok
    rw [serVal_zero] at hok
    exact absurd hok (by simp)
  | succ fuel ih =>
    intro path i s hok n hreach
    rw [serVal_ref] at hok
    by_cases hip : i ∈ path
    · rw [if_pos hip] at hok
      exact absurd hok (by simp)
    · rw [if_neg hip] at hok
      rcases hfld : serFields h fuel (i :: path) (h.fieldsOf i) with e | body
      · rw [hfld] at hok
        exact absurd hok (by simp)
      · rw [hfld] at hok
        rcases Relation.ReflTransGen.cases_head hreach with rfl | ⟨c, hic, hcn⟩
        · refine ⟨hip, ?_⟩
          intro hcyc
          obtain ⟨c, hic, hci⟩ := (Relation.TransGen.head'_iff).mp hcyc
          obtain ⟨k, hmem⟩ := hic
          obtain ⟨s2, hs2⟩ := serFields_ok_each hfld (k, JVal.ref c) hmem
          exact (ih (i :: path) c s2 hs2 i hci).1 (List.mem_cons_self i path)
        · obtain ⟨k, hmem⟩ := hic
          obtain ⟨s2, hs2⟩ := serFields_ok_each hfld (k, JVal.ref c) hmem
          have hres := ih (i :: path) c s2 hs2 n hcn
          exact ⟨fun hnp => hres.1 (List.mem_cons_of_mem _ hnp), hres.2⟩

theorem anchor_root_ref (h : JHeap) (v₀ : JVal) :
    ∀ (path : List Nat) (c : Nat), Anchor h v₀ path (.ref c) →
      ∃ r, v₀ = .ref r ∧ Relation.ReflTransGen h.edge r c := by
  intro path
  induction path with
  | nil =>
    intro c hz
    exact ⟨c, hz.symm, Relation.ReflTransGen.refl⟩
  | cons p rest ih =>
    intro c hanc
    obtain ⟨⟨k, hmem⟩, hrest⟩ := hanc
    obtain ⟨r, hv, hrp⟩ := ih p hrest
    exact ⟨r, hv, hrp.tail ⟨k, hmem⟩⟩

theorem anchor_chain (h : JHeap) (v₀ : JVal) :
    ∀ (path : List Nat) (c : Nat), Anchor h v₀ path (.ref c) →
      ∀ x ∈ path, Relation.TransGen h.edge x c := by
  intro path
  induction path with
  | nil =>
    intro c _ x hx
    cases hx
  | cons p rest ih =>
    intro c hanc x hx
    obtain ⟨⟨k, hmem⟩, hrest⟩ := hanc
    rcases List.mem_cons.mp hx with rfl | hx2
    · exact Relation.TransGen.single ⟨k, hmem⟩
    · exact (ih p hrest x hx2).tail ⟨k, hmem⟩

theorem serVal_cyclic_err (h : JHeap) (v₀ : JVal) :
    ∀ (fuel : Nat) (path : List Nat) (v : JVal),
      serVal h fuel path v = .error .cyclic → Anchor h v₀ path v → cyclicFrom h v₀ := by
  intro fuel
  induction fuel with
  | zero =>
    intro path v herr
    rw [serVal_zero] at herr
    exact absurd herr (by simp)
  | succ fuel ih =>
    intro path v herr hanc
    cases v with
    | scalar s =>
      rw [serVal_scalar] at herr
      exact absurd herr (by simp)
    | ref id =>
      rw [serVal_ref] at herr
      by_cases hip : id ∈ path
      · obtain ⟨r, hv, hreach⟩ := anchor_root_ref h v₀ path id hanc
        have hcyc := anchor_chain h v₀ path id hanc id hip
        exact ⟨r, id, hv, hreach, hcyc⟩
      · rw [if_neg hip] at herr
        rcases hfld : serFields h fuel (id :: path) (h.fieldsOf id) with e | body
        · rw [hfld] at herr
          injection herr with he
          obtain ⟨f, hf, hval⟩ := serFields_error_exists (he ▸ hfld)
          have hanc2 : Anchor h v₀ (id :: path) f.2 := ⟨⟨f.1, by simpa using hf⟩, hanc⟩
          exact ih (id :: path) f.2 hval hanc2
        · rw [hfld] at herr
          exact absurd herr (by simp)

theorem serVal_no_fuel (h : JHeap) (S : List Nat) (hS : ∀ j ∈ h.refIds, j ∈ S) :
    ∀ (fuel : Nat) (path : List Nat) (v : JVal),
      path.Nodup → (∀ x ∈ path, x ∈ S) → (∀ j ∈ v.refsOf, j ∈ S) →
      S.length + 1 ≤ fuel + path.length →
      serVal h fuel path v ≠ .error .fuelOut := by
  intro fuel
  induction fuel with
  | zero =>
    intro path v hnd hsub _ hle
    have hlen : path.length ≤ S.length := nodup_subset_length hnd hsub
    omega
  | succ fuel ih =>
    intro path v hnd hsub hv hle
    cases v with
    | scalar s =>
      rw [serVal_scalar]
      simp
    | ref id =>
      rw [serVal_ref]
      by_cases hip : id ∈ path
      · rw [if_pos hip]
        simp
      · rw [if_neg hip]
        rcases hfld : serFields h fuel (id :: path) (h.fieldsOf id) with e | body
        · intro hcontra
          have he : e = SerErr.fuelOut := by
            have hcontra2 : Except.error (ε := SerErr) (α := String) e = .error .fuelOut := hcontra
            injection hcontra2 with he2
          subst he
          obtain ⟨f, hf, hval⟩ := serFields_error_exists hfld
          have hid : id ∈ S := hv id (by simp [JVal.refsOf])
          refine ih (id :: path) f.2 ?_ ?_ ?_ ?_ hval
          · exact List.nodup_cons.mpr ⟨hip, hnd⟩
          · intro x hx
            rcases List.mem_cons.mp hx with rfl | hx2
            · exact hid
            · exact hsub x hx2
          · intro j hj
            exact hS j (fieldsOf_refs_mem hf j hj)
          · simp only [List.length_cons]
            omega
        · simp [hfld]

/-- C6: `toJSON` terminates on every value (it is a total function of the
embedded heap), raises the serialization error exactly on values whose
reference graph is cyclic, and returns a JSON string on every acyclic
value. -/
theorem toJSON_cycle_detection :
    ∀ (h : JHeap) (v : JVal),
      (cyclicFrom h v → toJSON h v = .error .cyclic) ∧
      (¬ cyclicFrom h v → ∃ s, toJSON h v = .ok s) := by
  intro h v
  have hfuel : serVal h ((v.refsOf ++ h.refIds).length + 1) [] v ≠ .error .fuelOut := by
    refine serVal_no_fuel h (v.refsOf ++ h.refIds)
      (fun j hj => List.mem_append_right _ hj)
      ((v.refsOf ++ h.refIds).length + 1) [] v List.nodup_nil (by simp)
      (fun j hj => List.mem_append_left _ hj) ?_
    simp
  constructor
  · rintro ⟨i, n, hv, hreach, hcyc⟩
    rcases hr : toJSON h v with e | s
    · cases e with
      | cyclic => rfl
      | fuelOut => exact absurd hr hfuel
    · subst hv
      have hres := serVal_ok_reach h _ [] i s hr n hreach
      exact absurd hcyc hres.2
  · intro hnc
    rcases hr : toJSON h v with e | s
    · cases e with
      | cyclic =>
        have hanc : Anchor h v [] v := rfl
        exact absurd (serVal_cyclic_err h v _ [] v hr hanc) hnc
      | fuelOut => exact absurd hr hfuel
    · exact ⟨s, rfl⟩

/-- Witness for `toJSON_cycle_detection`: a one-object heap whose object
refers to itself is detected as cyclic, and a scalar root over the empty
heap serializes successfully. -/
theorem toJSON_cycle_detection_witness :
    cyclicFrom ⟨[(0, [("self", JVal.ref 0)])]⟩ (.ref 0) ∧
    toJSON ⟨[(0, [("self", JVal.ref 0)])]⟩ (.ref 0) = .error .cyclic ∧
    ¬ cyclicFrom ⟨[]⟩ (.scalar .nullS) ∧
    (∃ s, toJSON (⟨[]⟩ : JHeap) (.scalar .nullS) = .ok s) := by
  have hcyc : cyclicFrom ⟨[(0, [("self", JVal.ref 0)])]⟩ (.ref 0) := by
    refine ⟨0, 0, rfl, Relation.ReflTransGen.refl, Relation.TransGen.single ?_⟩
    exact ⟨"self", by simp [JHeap.fieldsOf, alookup]⟩
  have hnc : ¬ cyclicFrom ⟨[]⟩ (.scalar .nullS) := by
    rintro ⟨i, n, hv, -, -⟩
    cases hv
  exact ⟨hcyc, (toJSON_cycle_detection _ _).1 hcyc, hnc,
    (toJSON_cycle_detection _ _).2 hnc⟩


end Jsa
